import Mathlib

/-!
Verification model of `ESP32_Servo.cpp` (jkb-git/ESP32Servo).

The pool of PWM channels is process-wide state (`Servo::ServoCount`,
`Servo::ChannelUsed`); each `Servo` instance carries a channel number and
per-instance pulse state.  The tick conversions in the source are computed
in IEEE-754 binary32 ("float") arithmetic and truncated toward zero when
cast back to `int`; they are modelled here over exact fractions with an
explicit round-to-nearest-even at 24 bits of significand, which is exact
for the normal-range values that arise in this program (no overflow,
underflow or NaN is reachable in the modelled value ranges).
-/

/-- Modelled from the spec: `MAX_SERVOS`, the hardware channel count from the
missing header `ESP32_Servo.h`; the source's own comment says the ESP32 has 16
LED PWM channels, and the spec calls this `MAX_CHANNELS`. -/
def MAX_SERVOS : Nat := 16

/-- Modelled from the spec: `MIN_PULSE_WIDTH` = 500 µs, the absolute device
lower bound (`MIN_PULSE_US` in the spec). -/
def MIN_PULSE_WIDTH : Int := 500

/-- Modelled from the spec: `MAX_PULSE_WIDTH` = 2500 µs, the absolute device
upper bound (`MAX_PULSE_US` in the spec). -/
def MAX_PULSE_WIDTH : Int := 2500

/-- Modelled from the spec: `DEFAULT_uS_LOW` = 544 µs, default per-instance
lower pulse bound. -/
def DEFAULT_uS_LOW : Int := 544

/-- Modelled from the spec: `DEFAULT_uS_HIGH` = 2400 µs, default per-instance
upper pulse bound. -/
def DEFAULT_uS_HIGH : Int := 2400

/-- Modelled from the spec: `DEFAULT_TIMER_WIDTH` = 16 bits. -/
def DEFAULT_TIMER_WIDTH : Int := 16

/-- Modelled from the spec: `REFRESH_USEC` = 20000 µs, the fixed pulse
period (50 Hz refresh). -/
def REFRESH_USEC : Int := 20000

/-- Modelled from the spec: `DEFAULT_PULSE_WIDTH_TICKS`, the tick count the
constructor stores before any write; the spec's concrete scenario gives
`floor(1500 / (20000/65536)) = 4915` for the default 1500 µs pulse at the
default 16-bit width. -/
def DEFAULT_PULSE_WIDTH_TICKS : Int := 4915

/-- Binary length of a natural number below `2 ^ 2 ^ w`, by binary
splitting; structural recursion on `w` so that kernel reduction works. -/
def bitLenAux : Nat → Nat → Nat
  | 0, n => if n = 0 then 0 else 1
  | w + 1, n =>
    if n < 2 ^ 2 ^ w then bitLenAux w n else bitLenAux w (n / 2 ^ 2 ^ w) + 2 ^ w

/-- Binary length of a natural number: `0` for `0`, and the unique `A` with
`2 ^ (A - 1) ≤ n < 2 ^ A` for positive `n < 2 ^ 128`. -/
def bitLen (n : Nat) : Nat := bitLenAux 7 n

/-- Evaluation-forcing continuation on a natural number: semantically the
identity (`forceN n k = k n`), but the pattern match makes kernel reduction
bring `n` to literal form once before it is reused. -/
def forceN {α : Sort u} (n : Nat) (k : Nat → α) : α :=
  match n with
  | 0 => k 0
  | Nat.succ m => k (Nat.succ m)

/-- Evaluation-forcing continuation on an integer: semantically the
identity (`forceZ i k = k i`). -/
def forceZ {α : Sort u} (i : Int) (k : Int → α) : α :=
  match i with
  | Int.ofNat n => forceN n fun m => k (Int.ofNat m)
  | Int.negSucc n => forceN n fun m => k (Int.negSucc m)

/-- Round-to-nearest, ties to even, of the fraction `n / d` (for `d > 0`):
the final rounding step of an IEEE-754 operation on the scaled significand. -/
def rneDiv (n d : Nat) : Nat :=
  let f := n / d
  let r := n % d
  if 2 * r < d then f
  else if d < 2 * r then f + 1
  else if f % 2 = 0 then f else f + 1

/-- Does `a / b ≥ 2 ^ e` hold (for `a, b > 0`)?  Integer comparison used to
pin down the binary exponent of a positive rational. -/
def qGePow2 (a b : Nat) (e : Int) : Bool :=
  if 0 ≤ e then b * 2 ^ e.toNat ≤ a else b ≤ a * 2 ^ (-e).toNat

/-- The binary exponent of a positive rational `a / b`: the unique `k` with
`2 ^ k ≤ a / b < 2 ^ (k + 1)`. -/
def binExp (a b : Nat) : Int :=
  forceZ ((bitLen a : Int) - (bitLen b : Int)) fun k0 =>
  if qGePow2 a b k0 then k0 else k0 - 1

/-- An exact (not necessarily reduced) fraction `num / den`, the carrier on
which the binary32 arithmetic of the source is modelled; every constructed
value keeps `den` positive.  A plain pair of machine-free integers is used
instead of `ℚ` so that all computations reduce inside the kernel. -/
structure Frac where
  num : Int
  den : Nat
  deriving DecidableEq

/-- The exact rational value of a fraction. -/
def Frac.val (q : Frac) : ℚ := (q.num : ℚ) / (q.den : ℚ)

/-- Evaluation-forcing continuation on a fraction: semantically the
identity (`forceF q k = k q`). -/
def forceF {α : Sort u} (q : Frac) (k : Frac → α) : α :=
  match q with
  | ⟨n, d⟩ => forceZ n fun n => forceN d fun d => k ⟨n, d⟩

/-- Exact quotient of two fractions (sign moved into the numerator so the
denominator stays positive). -/
def Frac.div (q r : Frac) : Frac :=
  forceF q fun q => forceF r fun r =>
  if 0 ≤ r.num then ⟨q.num * r.den, q.den * r.num.toNat⟩
  else ⟨-(q.num * r.den), q.den * (-r.num).toNat⟩

/-- Exact product of two fractions. -/
def Frac.mul (q r : Frac) : Frac :=
  forceF q fun q => forceF r fun r => ⟨q.num * r.num, q.den * r.den⟩

/-- Exact negation of a fraction. -/
def Frac.neg (q : Frac) : Frac := ⟨-q.num, q.den⟩

/-- Round a positive fraction `a / b` (given by numerator and denominator)
to the nearest IEEE-754 binary32 value (24-bit significand, ties to even),
assuming the result is in the normal range — true for every value arising
in this program. -/
def roundPos (a b : Nat) : Frac :=
  forceZ (binExp a b - 23) fun e =>
  if 0 ≤ e then
    ⟨(rneDiv a (b * 2 ^ e.toNat) : Int) * 2 ^ e.toNat, 1⟩
  else
    ⟨(rneDiv (a * 2 ^ (-e).toNat) b : Int), 2 ^ (-e).toNat⟩

/-- Round-to-nearest-even at binary32 precision, the rounding applied by
every single-precision floating-point operation on the target. -/
def roundF (q : Frac) : Frac :=
  forceF q fun q =>
  if 0 < q.num then roundPos q.num.toNat q.den
  else if q.num < 0 then (roundPos (-q.num).toNat q.den).neg
  else ⟨0, 1⟩

/-- C cast of an integer to `float`: exact for the magnitudes in this
program, modelled as binary32 rounding of the integer. -/
def floatOfInt (n : ℤ) : Frac := roundF ⟨n, 1⟩

/-- Single-precision division: the correctly rounded quotient. -/
def floatDiv (a b : Frac) : Frac := roundF (a.div b)

/-- Single-precision multiplication: the correctly rounded product. -/
def floatMul (a b : Frac) : Frac := roundF (a.mul b)

/-- C cast `(int)` of a `float` value: truncation toward zero. -/
def truncF (q : Frac) : ℤ := forceF q fun q => Int.tdiv q.num (q.den : ℤ)

/-- The body of `Servo::usToTicks`, parameterised by the instance's
`timer_width_ticks` member:
`(int)((float)usec / ((float)REFRESH_USEC / (float)this->timer_width_ticks))`. -/
def usToTicksF (twt : Int) (usec : Int) : Int :=
  truncF (floatDiv (floatOfInt usec) (floatDiv (floatOfInt REFRESH_USEC) (floatOfInt twt)))

/-- The body of `Servo::ticksToUs`, parameterised by the instance's
`timer_width_ticks` member:
`(int)((float)ticks * ((float)REFRESH_USEC / (float)this->timer_width_ticks))`. -/
def ticksToUsF (twt : Int) (ticks : Int) : Int :=
  truncF (floatMul (floatOfInt ticks) (floatDiv (floatOfInt REFRESH_USEC) (floatOfInt twt)))

/-- Modelled from the spec: the Arduino `map()` integer range-mapping
function called by `Servo::write` and `Servo::read` (defined in the Arduino
core, not in this repository):
`(x - in_min) * (out_max - out_min) / (in_max - in_min) + out_min`,
with C integer division truncating toward zero. -/
def arduinoMap (x inMin inMax outMin outMax : Int) : Int :=
  Int.tdiv ((x - inMin) * (outMax - outMin)) (inMax - inMin) + outMin

/-- The process-wide channel-pool state: `Servo::ServoCount` and the
`Servo::ChannelUsed` array (entries `0` = never used, `1` = in use,
`-1` = used and disposed, i.e. available for reuse; index `0` is ignored). -/
structure Pool where
  ServoCount : Int
  ChannelUsed : Int → Int

/-- The initial process state: `ServoCount = 0`, `ChannelUsed` all zero. -/
def Pool.initial : Pool := ⟨0, fun _ => 0⟩

/-- The per-instance state of a `Servo` object: channel number, stored tick
count, timer width, bound pin (−1 when unattached), per-instance pulse
bounds, and the cached `timer_width_ticks = pow(2, timer_width)`. -/
structure Servo where
  servoChannel : Int
  ticks : Int
  timer_width : Int
  pinNumber : Int
  min : Int
  max : Int
  timer_width_ticks : Int

/-- The reuse scan at the top of the constructor: the first index
`i ∈ [1, MAX_SERVOS]` with `ChannelUsed[i] == -1`, if any. -/
def findReuse (p : Pool) : Option Nat :=
  (List.range' 1 MAX_SERVOS).find? fun i => p.ChannelUsed (i : Int) == -1

/-- `Servo::Servo()`.  C++ leaves the data members of a fresh object
uninitialized; the indeterminate initial member values are supplied by the
`uninit` argument, and the constructor overwrites exactly the members the
source writes (all of them when a channel was obtained, only
`servoChannel` otherwise). -/
def Servo.construct (uninit : Servo) (p : Pool) : Servo × Pool :=
  let chp : Int × Pool :=
    match findReuse p with
    | some i => ((i : Int), { p with ChannelUsed := Function.update p.ChannelUsed (i : Int) 1 })
    | none =>
      if p.ServoCount < (MAX_SERVOS : Int) then
        let c := p.ServoCount + 1
        (c, { ServoCount := c, ChannelUsed := Function.update p.ChannelUsed c 1 })
      else
        (0, p)
  let ch := chp.1
  if ch > 0 then
    ({ servoChannel := ch, ticks := DEFAULT_PULSE_WIDTH_TICKS,
       timer_width := DEFAULT_TIMER_WIDTH, pinNumber := -1,
       min := DEFAULT_uS_LOW, max := DEFAULT_uS_HIGH,
       timer_width_ticks := 2 ^ DEFAULT_TIMER_WIDTH.toNat }, chp.2)
  else
    ({ uninit with servoChannel := 0 }, chp.2)

/-- `Servo::attached()`: returns the raw `ChannelUsed` entry converted to
`bool` by C semantics, i.e. true iff the entry is nonzero. -/
def Servo.attached (s : Servo) (p : Pool) : Bool :=
  p.ChannelUsed s.servoChannel != 0

/-- `Servo::attach(pin, min, max)` (the `ENFORCE_PINS` block is compiled
out in the source).  Returns the `int` result together with the updated
instance and pool; the `ledcSetup`/`ledcAttachPin` calls are external
hardware effects with no modelled state. -/
def Servo.attach (s : Servo) (p : Pool) (pin mn mx : Int) : Int × Servo × Pool :=
  if s.servoChannel ≤ (MAX_SERVOS : Int) ∧ s.servoChannel > 0 then
    let sp : Servo × Pool :=
      if s.pinNumber < 0 then
        ({ s with ticks := DEFAULT_PULSE_WIDTH_TICKS,
                  timer_width := DEFAULT_TIMER_WIDTH,
                  timer_width_ticks := 2 ^ DEFAULT_TIMER_WIDTH.toNat },
         { p with ChannelUsed := Function.update p.ChannelUsed s.servoChannel 1 })
      else (s, p)
    let s₁ := { sp.1 with pinNumber := pin }
    let mn' := if mn < MIN_PULSE_WIDTH then MIN_PULSE_WIDTH else mn
    let mx' := if mx > MAX_PULSE_WIDTH then MAX_PULSE_WIDTH else mx
    (1, { s₁ with min := mn', max := mx' }, sp.2)
  else
    (0, s, p)

/-- `Servo::attach(pin)`: delegates with the default pulse bounds. -/
def Servo.attach1 (s : Servo) (p : Pool) (pin : Int) : Int × Servo × Pool :=
  s.attach p pin DEFAULT_uS_LOW DEFAULT_uS_HIGH

/-- `Servo::detach()`: if `attached()`, release the pin binding
(`ledcDetachPin` is external), mark the channel entry `-1` for reuse and
clear the pin number. -/
def Servo.detach (s : Servo) (p : Pool) : Servo × Pool :=
  if s.attached p then
    ({ s with pinNumber := -1 },
     { p with ChannelUsed := Function.update p.ChannelUsed s.servoChannel (-1) })
  else (s, p)

/-- `Servo::usToTicks(usec)`. -/
def Servo.usToTicks (s : Servo) (usec : Int) : Int :=
  usToTicksF s.timer_width_ticks usec

/-- `Servo::ticksToUs(ticks)`. -/
def Servo.ticksToUs (s : Servo) (ticks : Int) : Int :=
  ticksToUsF s.timer_width_ticks ticks

/-- `Servo::writeMicroseconds(value)`: when the channel is valid and
attached, clamp into `[min, max]`, convert to ticks and store; the
`ledcWrite` call is an external hardware effect.  The pool is unchanged. -/
def Servo.writeMicroseconds (s : Servo) (p : Pool) (value : Int) : Servo :=
  if s.servoChannel ≤ (MAX_SERVOS : Int) ∧ s.attached p then
    let v := if value < s.min then s.min else if value > s.max then s.max else value
    { s with ticks := s.usToTicks v }
  else s

/-- `Servo::write(value)`: values below `MIN_PULSE_WIDTH` are treated as
angles in degrees, clamped to `[0, 180]` and mapped into `[min, max]`;
everything else is passed through as microseconds. -/
def Servo.write (s : Servo) (p : Pool) (value : Int) : Servo :=
  let v :=
    if value < MIN_PULSE_WIDTH then
      let a := if value < 0 then 0 else if value > 180 then 180 else value
      arduinoMap a 0 180 s.min s.max
    else value
  s.writeMicroseconds p v

/-- `Servo::readMicroseconds()`: `ticksToUs(ticks)` when the channel is
valid and attached, otherwise `0`. -/
def Servo.readMicroseconds (s : Servo) (p : Pool) : Int :=
  if s.servoChannel ≤ (MAX_SERVOS : Int) ∧ s.attached p then s.ticksToUs s.ticks
  else 0

/-- `Servo::read()`: map the pulse width (plus the deliberate `+1` nudge)
back to degrees. -/
def Servo.read (s : Servo) (p : Pool) : Int :=
  arduinoMap (s.readMicroseconds p + 1) s.min s.max 0 180

/-- `Servo::setTimerWidth(value)`: clamp the new width to `[16, 20]` and
rescale the stored ticks by shifting by `widthDifference = old − new`.
The source computes `ticks >>= widthDifference` when `widthDifference ≤ 0`;
a shift by a negative count is undefined behavior in C++, so this model
keeps `ticks` unchanged in that branch (`>> 0` is the identity) and no
theorem below depends on the negative case.  The detach/reconfigure/
reattach calls at the end are external hardware effects. -/
def Servo.setTimerWidth (s : Servo) (value : Int) : Servo :=
  let v := if value < 16 then (16 : Int) else if value > 20 then 20 else value
  let widthDifference := s.timer_width - v
  let ticks' := if widthDifference > 0 then s.ticks * 2 ^ widthDifference.toNat else s.ticks
  { s with ticks := ticks', timer_width := v, timer_width_ticks := 2 ^ v.toNat }

/-- `Servo::readTimerWidth()`. -/
def Servo.readTimerWidth (s : Servo) : Int := s.timer_width

/-- A fixed choice of indeterminate initial member values for constructed
instances, used by the concrete execution scenarios; C++ guarantees
nothing about these. -/
def uninitServo : Servo :=
  { servoChannel := 0, ticks := 0, timer_width := 0, pinNumber := 0,
    min := DEFAULT_uS_LOW, max := DEFAULT_uS_HIGH, timer_width_ticks := 0 }

/-- The channel numbers handed out by `n` consecutive constructions, oldest
first, together with the final pool. -/
def constructSeq : Nat → Pool → List Int × Pool
  | 0, p => ([], p)
  | n + 1, p =>
    let sp := Servo.construct uninitServo p
    let rest := constructSeq n sp.2
    (sp.1.servoChannel :: rest.1, rest.2)

/-- Concrete scenario: the first construction from the initial process
state (receives channel 1). -/
def scenarioA1 : Servo × Pool := Servo.construct uninitServo Pool.initial

/-- Concrete scenario: the constructed instance attached to pin 13 with the
default pulse bounds. -/
def scenarioA2 : Int × Servo × Pool := scenarioA1.1.attach1 scenarioA1.2 13

/-- Concrete scenario: the attached instance after `detach()`. -/
def scenarioA3 : Servo × Pool := scenarioA2.2.1.detach scenarioA2.2.2

/-- Concrete scenario for channel reuse: two instances constructed from the
initial state (channels 1 and 2). -/
def scenarioB1 : Servo × Pool := Servo.construct uninitServo Pool.initial

/-- Second constructed instance (channel 2), called instance A below. -/
def scenarioB2 : Servo × Pool := Servo.construct uninitServo scenarioB1.2

/-- Both instances attached (pins 12 and 13). -/
def scenarioB3 : Int × Servo × Pool := scenarioB1.1.attach1 scenarioB2.2 12

/-- Instance A (channel 2) attached to pin 13. -/
def scenarioB4 : Int × Servo × Pool := scenarioB2.1.attach1 scenarioB3.2.2 13

/-- The channel-1 instance detached first (slot 1 becomes reclaimable). -/
def scenarioB5 : Servo × Pool := scenarioB3.2.1.detach scenarioB4.2.2

/-- Instance A (channel 2) detached afterwards (slot 2 reclaimable too). -/
def scenarioB6 : Servo × Pool := scenarioB4.2.1.detach scenarioB5.2

/-- Instance B, constructed right after detaching A. -/
def scenarioB7 : Servo × Pool := Servo.construct uninitServo scenarioB6.2

/-- Concrete scenario for tick persistence: the attached default instance
after `writeMicroseconds(1000)` (stores 3276 ticks). -/
def scenarioC1 : Servo := scenarioA2.2.1.writeMicroseconds scenarioA2.2.2 1000

/-- The same instance detached. -/
def scenarioC2 : Servo × Pool := scenarioC1.detach scenarioA2.2.2

/-- The same instance re-attached to pin 13. -/
def scenarioC3 : Int × Servo × Pool := scenarioC2.1.attach1 scenarioC2.2 13

/-- Concrete scenario: sixteen consecutive constructions exhaust the pool. -/
def scenarioD16 : List Int × Pool := constructSeq 16 Pool.initial

/-- The seventeenth instance, constructed from the exhausted pool (receives
sentinel channel 0; its other members stay indeterminate, here the
`uninitServo` values). -/
def scenarioD17 : Servo × Pool := Servo.construct uninitServo scenarioD16.2

/-- Concrete scenario for `setTimerWidth`: a channel-1 instance at timer
width 20 holding 78643 ticks (a 1500 µs pulse: `1500 * 2^20 / 20000`),
attached to pin 13. -/
def scenarioE : Servo :=
  { servoChannel := 1, ticks := 78643, timer_width := 20, pinNumber := 13,
    min := DEFAULT_uS_LOW, max := DEFAULT_uS_HIGH, timer_width_ticks := 2 ^ 20 }

/-- The pool for the `setTimerWidth` scenario: channel 1 in use. -/
def scenarioEPool : Pool :=
  { ServoCount := 1, ChannelUsed := Function.update (fun _ => 0) 1 1 }

/-- The write-then-read composite of an attached instance holding the
default bounds 544/2400 at the default 16-bit width, as a function of the
written value: `write` maps sub-500 values as angles, `writeMicroseconds`
clamps into `[544, 2400]` and stores `usToTicks`, `read` maps
`readMicroseconds() + 1` back to degrees. -/
def writeReadDefault (value : Int) : Int :=
  let v :=
    if value < MIN_PULSE_WIDTH then
      let a := if value < 0 then 0 else if value > 180 then 180 else value
      arduinoMap a 0 180 DEFAULT_uS_LOW DEFAULT_uS_HIGH
    else value
  let v2 := if v < DEFAULT_uS_LOW then DEFAULT_uS_LOW
            else if v > DEFAULT_uS_HIGH then DEFAULT_uS_HIGH else v
  arduinoMap (ticksToUsF (2 ^ 16) (usToTicksF (2 ^ 16) v2) + 1)
    DEFAULT_uS_LOW DEFAULT_uS_HIGH 0 180

theorem forceN_eq {α : Sort u} (n : Nat) (k : Nat → α) : forceN n k = k n := by
  cases n <;> rfl

theorem forceZ_eq {α : Sort u} (i : Int) (k : Int → α) : forceZ i k = k i := by
  cases i <;> simp [forceZ, forceN_eq]

theorem forceF_eq {α : Sort u} (q : Frac) (k : Frac → α) : forceF q k = k q := by
  cases q
  simp [forceF, forceZ_eq, forceN_eq]

/-- `List.find?` over a contiguous range returns the first element
satisfying the predicate. -/
theorem find?_range'_eq_some (f : Nat → Bool) (len : Nat) :
    ∀ (s m : Nat), s ≤ m → m < s + len → f m = true →
      (∀ j, s ≤ j → j < m → f j = false) →
      (List.range' s len).find? f = some m := by
  induction len with
  | zero => intro s m h1 h2; omega
  | succ len ih =>
    intro s m h1 h2 hm hlt
    rw [List.range'_succ]
    rcases Nat.eq_or_lt_of_le h1 with rfl | hsm
    · exact List.find?_cons_of_pos _ hm
    · rw [List.find?_cons_of_neg _ (by simp [hlt s le_rfl hsm])]
      exact ih (s + 1) m hsm (by omega) hm fun j hj hjm => hlt j (by omega) hjm

/-- C1: starting from the initial process state, a sequence of `N ≤
MAX_SERVOS` consecutive constructions (with no detaches) hands out the
channel numbers `1, 2, …, N` in order, so the i-th instance receives
channel `i` and all `N` channel numbers are distinct and lie in `[1, N]`. -/
theorem claim_C1 : ∀ N : Nat, N ≤ MAX_SERVOS →
    (constructSeq N Pool.initial).1 = (List.range' 1 N).map (fun i => (i : Int)) := by
  decide

/-- Witness for C1 at `N = 3`: the first three constructions receive
channels 1, 2, 3. -/
theorem claim_C1_witness :
    (constructSeq 3 Pool.initial).1 = (List.range' 1 3).map (fun i => (i : Int)) :=
  claim_C1 3 (by decide)

/-- C4 (failing input): constructing an instance, attaching it to pin 13
and detaching it leaves the channel slot tagged reclaimable (`-1`), yet
`attached()` still returns `true` — the source converts the raw
`ChannelUsed` entry to `bool`, so `-1` counts as attached — and
`readMicroseconds()` returns 1499 rather than the 0 the claim requires. -/
theorem claim_C4 :
    scenarioA3.2.ChannelUsed scenarioA3.1.servoChannel = -1 ∧
    scenarioA3.1.attached scenarioA3.2 = true ∧
    scenarioA3.1.readMicroseconds scenarioA3.2 = 1499 := by decide

/-- C7 (failing input): an attached instance at timer width 20 holding a
1500 µs pulse (78643 ticks, read back as 1499 µs) is rescaled by
`setTimerWidth(16)` with a *left* shift by `widthDifference = 4`
(`ticks * 2^4`), after which `readMicroseconds()` returns 383999 µs — the
microsecond pulse width is multiplied by roughly 256 instead of being
preserved. -/
theorem claim_C7 :
    scenarioE.readMicroseconds scenarioEPool = 1499 ∧
    (scenarioE.setTimerWidth 16).ticks = scenarioE.ticks * 2 ^ 4 ∧
    (scenarioE.setTimerWidth 16).readMicroseconds scenarioEPool = 383999 := by decide

/-- C9 counterexample: `attach(13, 3000, 2400)` on a freshly constructed
instance stores `min = 3000`, which exceeds the absolute device bound
`MAX_PULSE_WIDTH = 2500`: the source clamps `min` only from below and `max`
only from above. -/
theorem claim_C9_counterexample :
    (scenarioA1.1.attach scenarioA1.2 13 3000 2400).2.1.min = 3000 ∧
    ¬((scenarioA1.1.attach scenarioA1.2 13 3000 2400).2.1.min ≤ MAX_PULSE_WIDTH) := by
  decide

/-- C8 counterexample: after `writeMicroseconds(1000)` the instance holds
3276 ticks; `detach()` then `attach(13)` resets the tick count to the
default 4915, so the tick count does not persist across detach-then-
reattach. -/
theorem claim_C8_counterexample :
    scenarioC1.ticks = 3276 ∧ scenarioC3.2.1.ticks = 4915 ∧
    scenarioC3.2.1.ticks ≠ scenarioC1.ticks := by decide

set_option maxRecDepth 8000 in
/-- C3 counterexample: the seventeenth construction from the initial state
receives sentinel channel 0, but `read()` on that instance is not a
neutral/zero value: with the indeterminate `min`/`max` members happening to
hold 544/2400, `read()` returns `map(0 + 1, 544, 2400, 0, 180) = -52`. -/
theorem claim_C3_counterexample :
    scenarioD17.1.servoChannel = 0 ∧
    scenarioD17.1.read scenarioD17.2 = -52 ∧
    scenarioD17.1.read scenarioD17.2 ≠ 0 := by decide

/-- C2 counterexample: with slot 1 already reclaimable, detaching instance
A (channel 2) and then constructing instance B hands B channel 1 — the
lowest reclaimable slot — not A's channel 2. -/
theorem claim_C2_counterexample :
    scenarioB4.2.1.servoChannel = 2 ∧
    scenarioB7.1.servoChannel = 1 ∧
    scenarioB7.1.servoChannel ≠ scenarioB4.2.1.servoChannel := by decide

/-- The constructor reclaims the lowest-indexed reclaimable slot: if slot
`m ∈ [1, MAX_SERVOS]` holds `-1` and no lower slot does, construction
returns channel `m` and marks it in use. -/
theorem construct_reclaims_least (u : Servo) (p : Pool) (m : Nat)
    (h1 : 1 ≤ m) (h2 : m ≤ MAX_SERVOS)
    (hm : p.ChannelUsed (m : Int) = -1)
    (hlt : ∀ j : Nat, 1 ≤ j → j < m → p.ChannelUsed (j : Int) ≠ -1) :
    (Servo.construct u p).1.servoChannel = (m : Int) ∧
    (Servo.construct u p).2.ChannelUsed (m : Int) = 1 := by
  have hm' : (p.ChannelUsed (m : Int) == -1) = true := by simp [hm]
  have hfind : findReuse p = some m :=
    find?_range'_eq_some _ MAX_SERVOS 1 m h1
      (by have hms : MAX_SERVOS = 16 := rfl; omega) hm'
      (fun j hj hjm => by simp [hlt j hj hjm])
  have hpos : (0 : Int) < (m : Int) := by exact_mod_cast h1
  refine ⟨?_, ?_⟩
  · simp [Servo.construct, hfind, hpos]
  · simp [Servo.construct, hfind, hpos]

/-- C2 (amended): when some slot is reclaimable, construction reclaims the
lowest-indexed reclaimable slot, marks it in use, and assigns that channel;
in particular, detaching instance A and then constructing instance B gives
B exactly A's channel number provided no lower-indexed slot is reclaimable
(otherwise the lower slot wins, see the counterexample). -/
theorem claim_C2 :
    (∀ (u : Servo) (p : Pool) (m : Nat), 1 ≤ m → m ≤ MAX_SERVOS →
      p.ChannelUsed (m : Int) = -1 →
      (∀ j : Nat, 1 ≤ j → j < m → p.ChannelUsed (j : Int) ≠ -1) →
      (Servo.construct u p).1.servoChannel = (m : Int) ∧
      (Servo.construct u p).2.ChannelUsed (m : Int) = 1) ∧
    (∀ (A u : Servo) (p : Pool) (m : Nat), A.servoChannel = (m : Int) →
      1 ≤ m → m ≤ MAX_SERVOS → A.attached p = true →
      (∀ j : Nat, 1 ≤ j → j < m → p.ChannelUsed (j : Int) ≠ -1) →
      (Servo.construct u (A.detach p).2).1.servoChannel = A.servoChannel ∧
      (Servo.construct u (A.detach p).2).2.ChannelUsed A.servoChannel = 1) := by
  refine ⟨fun u p m h1 h2 hm hlt => construct_reclaims_least u p m h1 h2 hm hlt, ?_⟩
  intro A u p m hch h1 h2 hatt hlt
  have hd : (A.detach p).2.ChannelUsed
      = Function.update p.ChannelUsed A.servoChannel (-1) := by
    simp [Servo.detach, hatt]
  have hm' : (A.detach p).2.ChannelUsed (m : Int) = -1 := by
    rw [hd, hch, Function.update_same]
  have hlt' : ∀ j : Nat, 1 ≤ j → j < m → (A.detach p).2.ChannelUsed (j : Int) ≠ -1 := by
    intro j hj hjm
    have hne : (j : Int) ≠ A.servoChannel := by
      rw [hch]; exact_mod_cast Nat.ne_of_lt hjm
    rw [hd, Function.update_noteq hne]
    exact hlt j hj hjm
  have := construct_reclaims_least u (A.detach p).2 m h1 h2 hm' hlt'
  rw [hch]
  exact this

/-- C3 (amended): when all channels are assigned and none is reclaimable, a
further construction receives sentinel channel 0, and on a channel-0
instance `attach` returns 0 without mutating any state,
`writeMicroseconds` changes nothing, and `readMicroseconds` returns 0 —
but `read()` is not a neutral/zero value: it computes
`map(0 + 1, min, max, 0, 180)` from the instance's indeterminate `min` and
`max` members (e.g. −52 when they hold 544/2400, see the counterexample). -/
theorem claim_C3 :
    (∀ (u : Servo) (p : Pool),
      (∀ i : Nat, i < MAX_SERVOS + 1 → 1 ≤ i → p.ChannelUsed (i : Int) ≠ -1) →
      ¬(p.ServoCount < (MAX_SERVOS : Int)) →
      (Servo.construct u p).1.servoChannel = 0) ∧
    (∀ (s : Servo) (p : Pool) (pin mn mx v : Int),
      s.servoChannel = 0 → p.ChannelUsed 0 = 0 →
      s.attach p pin mn mx = (0, s, p) ∧
      s.writeMicroseconds p v = s ∧
      s.readMicroseconds p = 0 ∧
      s.read p = arduinoMap (0 + 1) s.min s.max 0 180) := by
  constructor
  · intro u p hall hcount
    have hfind : findReuse p = none := by
      rw [findReuse, List.find?_eq_none]
      intro x hx
      rw [List.mem_range'_1] at hx
      simp only [beq_iff_eq]
      exact hall x (by omega) hx.1
    simp [Servo.construct, hfind, hcount]
  · intro s p pin mn mx v h0 hz
    have hnotatt : s.attached p = false := by
      simp [Servo.attached, h0, hz]
    refine ⟨?_, ?_, ?_, ?_⟩
    · rw [Servo.attach, if_neg]
      rw [h0]
      simp
    · rw [Servo.writeMicroseconds, if_neg]
      simp [hnotatt]
    · rw [Servo.readMicroseconds, if_neg]
      simp [hnotatt]
    · rw [Servo.read, Servo.readMicroseconds, if_neg]
      simp [hnotatt]

/-- C8 (amended): `detach()` itself retains the stored tick count, but a
subsequent `attach` on the detached instance (whose pin number is then −1)
reinitializes the tick count to `DEFAULT_PULSE_WIDTH_TICKS`; the tick count
therefore survives detach-then-reattach only when it already equals the
default (see the counterexample). -/
theorem claim_C8 (s : Servo) (p : Pool) (pin mn mx : Int)
    (hatt : s.attached p = true) (h1 : 0 < s.servoChannel)
    (h2 : s.servoChannel ≤ (MAX_SERVOS : Int)) :
    (s.detach p).1.ticks = s.ticks ∧
    ((s.detach p).1.attach (s.detach p).2 pin mn mx).2.1.ticks
      = DEFAULT_PULSE_WIDTH_TICKS := by
  have hd1 : (s.detach p).1 = { s with pinNumber := -1 } := by
    simp [Servo.detach, hatt]
  refine ⟨by rw [hd1], ?_⟩
  rw [hd1, Servo.attach, if_pos ⟨h2, h1⟩]
  norm_num

/-- C9 (amended): after `attach(pin, min, max)` on a valid channel, the
stored `min` is at least `MIN_PULSE_WIDTH` and the stored `max` is at most
`MAX_PULSE_WIDTH` — the source clamps `min` only from below and `max` only
from above, so the pair need not both lie inside `[500, 2500]` (see the
counterexample). -/
theorem claim_C9 (s : Servo) (p : Pool) (pin mn mx : Int)
    (h1 : 0 < s.servoChannel) (h2 : s.servoChannel ≤ (MAX_SERVOS : Int)) :
    MIN_PULSE_WIDTH ≤ (s.attach p pin mn mx).2.1.min ∧
    (s.attach p pin mn mx).2.1.max ≤ MAX_PULSE_WIDTH := by
  rw [Servo.attach, if_pos ⟨h2, h1⟩]
  constructor
  · split_ifs <;> simp_all [MIN_PULSE_WIDTH]
  · split_ifs <;> simp_all [MAX_PULSE_WIDTH]

/-- C10: on an attached instance with a valid channel whose `min` exceeds
500 and with `min ≤ max`, `write(499)` runs the angle branch (clamped to
180 degrees, mapped to `max`) and stores `usToTicks(max)`, while
`write(500)` runs the microsecond branch (clamped up to `min`) and stores
`usToTicks(min)`: one more input unit jumps the pulse from the maximum to
the minimum. -/
theorem claim_C10 (s : Servo) (p : Pool)
    (hch : s.servoChannel ≤ (MAX_SERVOS : Int)) (hatt : s.attached p = true)
    (hmin : MIN_PULSE_WIDTH < s.min) (hmm : s.min ≤ s.max) :
    (s.write p 499).ticks = s.usToTicks s.max ∧
    (s.write p 500).ticks = s.usToTicks s.min := by
  simp only [MIN_PULSE_WIDTH] at hmin
  have hmap : arduinoMap 180 0 180 s.min s.max = s.max := by
    rw [arduinoMap, show (180 : Int) - 0 = 180 by norm_num,
      Int.mul_tdiv_cancel_left _ (by norm_num : (180 : Int) ≠ 0)]
    omega
  constructor
  · simp only [Servo.write]
    norm_num [MIN_PULSE_WIDTH]
    rw [hmap, Servo.writeMicroseconds, if_pos ⟨hch, hatt⟩]
    simp only [if_neg (show ¬(s.max < s.min) by omega),
      if_neg (show ¬(s.max > s.max) by omega)]
  · simp only [Servo.write]
    norm_num [MIN_PULSE_WIDTH]
    rw [Servo.writeMicroseconds, if_pos ⟨hch, hatt⟩]
    simp only [if_pos (show (500 : Int) < s.min by omega)]

/-- Witness for C2: with slots 1 and 2 reclaimable, construction reclaims
slot 1; and detaching the attached channel-1 instance (no lower slot
reclaimable) and constructing again hands back channel 1. -/
theorem claim_C2_witness :
    ((Servo.construct uninitServo scenarioB6.2).1.servoChannel = ((1 : Nat) : Int) ∧
     (Servo.construct uninitServo scenarioB6.2).2.ChannelUsed ((1 : Nat) : Int) = 1) ∧
    ((Servo.construct uninitServo (scenarioA2.2.1.detach scenarioA2.2.2).2).1.servoChannel
        = scenarioA2.2.1.servoChannel ∧
     (Servo.construct uninitServo (scenarioA2.2.1.detach scenarioA2.2.2).2).2.ChannelUsed
        scenarioA2.2.1.servoChannel = 1) :=
  ⟨claim_C2.1 uninitServo scenarioB6.2 1 (by decide) (by decide) (by decide)
      (fun _ hj hjm => absurd (Nat.lt_of_le_of_lt hj hjm) (Nat.lt_irrefl 1)),
   claim_C2.2 scenarioA2.2.1 uninitServo scenarioA2.2.2 1 (by decide) (by decide)
      (by decide) (by decide)
      (fun _ hj hjm => absurd (Nat.lt_of_le_of_lt hj hjm) (Nat.lt_irrefl 1))⟩

set_option maxRecDepth 8000 in
/-- Witness for C3: the seventeenth construction receives channel 0, and
the channel-0 instance's operations behave as stated. -/
theorem claim_C3_witness :
    ((Servo.construct uninitServo scenarioD16.2).1.servoChannel = 0) ∧
    (scenarioD17.1.attach scenarioD17.2 13 544 2400 = (0, scenarioD17.1, scenarioD17.2) ∧
     scenarioD17.1.writeMicroseconds scenarioD17.2 1500 = scenarioD17.1 ∧
     scenarioD17.1.readMicroseconds scenarioD17.2 = 0 ∧
     scenarioD17.1.read scenarioD17.2
       = arduinoMap (0 + 1) scenarioD17.1.min scenarioD17.1.max 0 180) :=
  ⟨claim_C3.1 uninitServo scenarioD16.2 (by decide) (by decide),
   claim_C3.2 scenarioD17.1 scenarioD17.2 13 544 2400 1500 (by decide) (by decide)⟩

/-- Witness for C8: the attached instance holding 3276 ticks keeps them
through `detach()`, and re-attaching resets the count to the default. -/
theorem claim_C8_witness :
    (scenarioC1.detach scenarioA2.2.2).1.ticks = scenarioC1.ticks ∧
    ((scenarioC1.detach scenarioA2.2.2).1.attach (scenarioC1.detach scenarioA2.2.2).2
        13 544 2400).2.1.ticks = DEFAULT_PULSE_WIDTH_TICKS :=
  claim_C8 scenarioC1 scenarioA2.2.2 13 544 2400 (by decide) (by decide) (by decide)

/-- Witness for C9: `attach(13, 3000, 100)` stores `min = 3000 ≥ 500` and
`max = 100 ≤ 2500`. -/
theorem claim_C9_witness :
    MIN_PULSE_WIDTH ≤ (scenarioA1.1.attach scenarioA1.2 13 3000 100).2.1.min ∧
    (scenarioA1.1.attach scenarioA1.2 13 3000 100).2.1.max ≤ MAX_PULSE_WIDTH :=
  claim_C9 scenarioA1.1 scenarioA1.2 13 3000 100 (by decide) (by decide)

/-- Witness for C10: on the attached default instance, `write(499)` stores
`usToTicks(2400)` while `write(500)` stores `usToTicks(544)`. -/
theorem claim_C10_witness :
    (scenarioA2.2.1.write scenarioA2.2.2 499).ticks
      = scenarioA2.2.1.usToTicks scenarioA2.2.1.max ∧
    (scenarioA2.2.1.write scenarioA2.2.2 500).ticks
      = scenarioA2.2.1.usToTicks scenarioA2.2.1.min :=
  claim_C10 scenarioA2.2.1 scenarioA2.2.2 (by decide) (by decide) (by decide) (by decide)

/-- On an attached instance with a valid channel, default bounds 544/2400
and the default 16-bit timer resolution, the write-then-read composite is
the closed function `writeReadDefault`, whatever the other members hold. -/
theorem writeRead_eq_default (s : Servo) (p : Pool) (value : Int)
    (hch : s.servoChannel ≤ (MAX_SERVOS : Int)) (hatt : s.attached p = true)
    (hmin : s.min = DEFAULT_uS_LOW) (hmax : s.max = DEFAULT_uS_HIGH)
    (htwt : s.timer_width_ticks = 2 ^ 16) :
    (s.write p value).read p = writeReadDefault value := by
  simp only [Servo.write, Servo.writeMicroseconds, Servo.usToTicks,
    if_pos (show s.servoChannel ≤ (MAX_SERVOS : Int) ∧ s.attached p = true from ⟨hch, hatt⟩)]
  simp only [Servo.read, Servo.readMicroseconds, Servo.ticksToUs, Servo.attached]
  simp only [hmin, hmax, htwt, writeReadDefault]
  rw [if_pos (show s.servoChannel ≤ (MAX_SERVOS : Int) ∧
      (p.ChannelUsed s.servoChannel != 0) = true from ⟨hch, hatt⟩)]

set_option maxHeartbeats 1600000 in
set_option maxRecDepth 4000 in
/-- Exhaustive check of the write-then-read composite at the default
configuration: for every angle in `[0, 180]` the value read back differs
from the written angle by at most one degree. -/
theorem writeReadDefault_close :
    ∀ a : Nat, a ≤ 180 → (writeReadDefault (a : Int) - (a : Int)).natAbs ≤ 1 := by
  decide

/-- C6: on every attached instance with a valid channel, the default
bounds 544/2400 and the default 16-bit timer width, `write(angle)` followed
by `read()` returns the angle to within ±1 degree, for every angle in
`[0, 180]` (`read()` maps `readMicroseconds() + 1` back through the
bounds). -/
theorem claim_C6 (s : Servo) (p : Pool)
    (hch : s.servoChannel ≤ (MAX_SERVOS : Int)) (hatt : s.attached p = true)
    (hmin : s.min = DEFAULT_uS_LOW) (hmax : s.max = DEFAULT_uS_HIGH)
    (htwt : s.timer_width_ticks = 2 ^ 16) :
    ∀ a : Nat, a ≤ 180 → ((s.write p (a : Int)).read p - (a : Int)).natAbs ≤ 1 := by
  intro a ha
  rw [writeRead_eq_default s p _ hch hatt hmin hmax htwt]
  exact writeReadDefault_close a ha

/-- Witness for C6 at angle 90 on the attached default instance. -/
theorem claim_C6_witness :
    ((scenarioA2.2.1.write scenarioA2.2.2 ((90 : Nat) : Int)).read scenarioA2.2.2
      - ((90 : Nat) : Int)).natAbs ≤ 1 :=
  claim_C6 scenarioA2.2.1 scenarioA2.2.2 (by decide) (by decide) (by decide) (by decide)
    (by decide) 90 (by decide)

/-- Correctness of the fuelled binary length: for `0 < n < 2 ^ 2 ^ w` the
result `A` is positive and satisfies `2 ^ (A - 1) ≤ n < 2 ^ A`. -/
theorem bitLenAux_spec : ∀ (w n : Nat), 0 < n → n < 2 ^ 2 ^ w →
    0 < bitLenAux w n ∧ 2 ^ (bitLenAux w n - 1) ≤ n ∧ n < 2 ^ bitLenAux w n := by
  intro w
  induction w with
  | zero =>
    intro n h0 h2
    interval_cases n
    simp [bitLenAux]
  | succ w ih =>
    intro n h0 h2
    have hpos : 0 < 2 ^ 2 ^ w := Nat.pos_pow_of_pos _ (by norm_num)
    by_cases hn : n < 2 ^ 2 ^ w
    · simpa [bitLenAux, hn] using ih n h0 hn
    · have hge : 2 ^ 2 ^ w ≤ n := le_of_not_lt hn
      have hsq : n < 2 ^ 2 ^ w * 2 ^ 2 ^ w := by
        have : (2 : Nat) ^ 2 ^ (w + 1) = 2 ^ 2 ^ w * 2 ^ 2 ^ w := by
          rw [← pow_add]
          congr 1
          omega
        omega
      have hm0 : 0 < n / 2 ^ 2 ^ w := Nat.div_pos hge hpos
      have hmlt : n / 2 ^ 2 ^ w < 2 ^ 2 ^ w := (Nat.div_lt_iff_lt_mul hpos).mpr hsq
      obtain ⟨hL0, hL1, hL2⟩ := ih (n / 2 ^ 2 ^ w) hm0 hmlt
      have hres : bitLenAux (w + 1) n = bitLenAux w (n / 2 ^ 2 ^ w) + 2 ^ w := by
        simp [bitLenAux, hn]
      have h2w : 0 < 2 ^ w := Nat.pos_pow_of_pos _ (by norm_num)
      refine ⟨by omega, ?_, ?_⟩
      · rw [hres, show bitLenAux w (n / 2 ^ 2 ^ w) + 2 ^ w - 1
            = (bitLenAux w (n / 2 ^ 2 ^ w) - 1) + 2 ^ w by omega, pow_add]
        calc 2 ^ (bitLenAux w (n / 2 ^ 2 ^ w) - 1) * 2 ^ 2 ^ w
            ≤ n / 2 ^ 2 ^ w * 2 ^ 2 ^ w := Nat.mul_le_mul_right _ hL1
          _ ≤ n := Nat.div_mul_le_self n _
      · rw [hres, pow_add]
        have hmod := Nat.div_add_mod n (2 ^ 2 ^ w)
        have hmlt2 : n % 2 ^ 2 ^ w < 2 ^ 2 ^ w := Nat.mod_lt _ hpos
        calc n = 2 ^ 2 ^ w * (n / 2 ^ 2 ^ w) + n % 2 ^ 2 ^ w := hmod.symm
          _ < 2 ^ 2 ^ w * (n / 2 ^ 2 ^ w) + 2 ^ 2 ^ w := by omega
          _ = (n / 2 ^ 2 ^ w + 1) * 2 ^ 2 ^ w := by ring
          _ ≤ 2 ^ bitLenAux w (n / 2 ^ 2 ^ w) * 2 ^ 2 ^ w :=
              Nat.mul_le_mul_right _ (by omega)

/-- Correctness of `bitLen` below `2 ^ 128`. -/
theorem bitLen_spec (n : Nat) (h0 : 0 < n) (h : n < 2 ^ 128) :
    0 < bitLen n ∧ 2 ^ (bitLen n - 1) ≤ n ∧ n < 2 ^ bitLen n :=
  bitLenAux_spec 7 n h0 h

/-- `rneDiv` never overshoots the floor by more than one. -/
theorem rneDiv_le (n d : Nat) : rneDiv n d ≤ n / d + 1 := by
  simp only [rneDiv]
  split_ifs <;> omega

/-- Two-sided half-unit error bound for round-to-nearest-even of `n / d`. -/
theorem rneDiv_close (n d : Nat) (hd : 0 < d) :
    (n : ℚ) / d - 1 / 2 ≤ (rneDiv n d : ℚ) ∧ (rneDiv n d : ℚ) ≤ (n : ℚ) / d + 1 / 2 := by
  have hdq : (0 : ℚ) < d := by exact_mod_cast hd
  have hmod := Nat.div_add_mod n d
  have hrd : n % d < d := Nat.mod_lt _ hd
  have hnq : (n : ℚ) = (d : ℚ) * (↑(n / d) : ℚ) + (↑(n % d) : ℚ) := by
    exact_mod_cast hmod.symm
  have hval : (n : ℚ) / d = (↑(n / d) : ℚ) + (↑(n % d) : ℚ) / d := by
    rw [hnq, add_div, mul_comm, mul_div_assoc, div_self (ne_of_gt hdq), mul_one]
  have hc0 : (0 : ℚ) ≤ (↑(n % d) : ℚ) / d := by positivity
  have hc1 : (↑(n % d) : ℚ) / d < 1 := by
    rw [div_lt_iff₀ hdq, one_mul]
    exact_mod_cast hrd
  simp only [rneDiv]
  split_ifs with h1 h2 h3
  · have hc : (↑(n % d) : ℚ) / d ≤ 1 / 2 := by
      rw [div_le_iff₀ hdq]
      have h1' : ((2 * (n % d) : ℕ) : ℚ) ≤ (d : ℚ) := by exact_mod_cast le_of_lt h1
      push_cast at h1'
      linarith
    exact ⟨by rw [hval]; linarith, by rw [hval]; linarith⟩
  · have hc : (1 : ℚ) / 2 ≤ (↑(n % d) : ℚ) / d := by
      rw [le_div_iff₀ hdq]
      have h2' : (d : ℚ) ≤ ((2 * (n % d) : ℕ) : ℚ) := by exact_mod_cast le_of_lt h2
      push_cast at h2'
      linarith
    exact ⟨by push_cast; rw [hval]; linarith, by push_cast; rw [hval]; linarith⟩
  · have hc : (↑(n % d) : ℚ) / d = 1 / 2 := by
      rw [div_eq_iff (ne_of_gt hdq)]
      have hdd : d = 2 * (n % d) := by omega
      have : (d : ℚ) = ((2 * (n % d) : ℕ) : ℚ) := by exact_mod_cast hdd
      push_cast at this
      linarith
    exact ⟨by rw [hval]; linarith, by rw [hval]; linarith⟩
  · have hc : (↑(n % d) : ℚ) / d = 1 / 2 := by
      rw [div_eq_iff (ne_of_gt hdq)]
      have hdd : d = 2 * (n % d) := by omega
      have : (d : ℚ) = ((2 * (n % d) : ℕ) : ℚ) := by exact_mod_cast hdd
      push_cast at this
      linarith
    exact ⟨by push_cast; rw [hval]; linarith, by push_cast; rw [hval]; linarith⟩

/-- The comparison `qGePow2` decides `2 ^ e ≤ a / b` over the rationals. -/
theorem qGePow2_iff (a b : Nat) (hb : 0 < b) (e : Int) :
    qGePow2 a b e = true ↔ (2 : ℚ) ^ e ≤ (a : ℚ) / b := by
  have hbq : (0 : ℚ) < b := by exact_mod_cast hb
  rw [qGePow2]
  split_ifs with he
  · rw [decide_eq_true_iff]
    rw [show (2 : ℚ) ^ e = (2 : ℚ) ^ e.toNat by
      rw [← zpow_natCast, Int.toNat_of_nonneg he]]
    rw [le_div_iff₀ hbq]
    constructor
    · intro h
      have h' : ((b * 2 ^ e.toNat : ℕ) : ℚ) ≤ (a : ℚ) := by exact_mod_cast h
      push_cast at h'
      linarith
    · intro h
      have h' : ((b * 2 ^ e.toNat : ℕ) : ℚ) ≤ (a : ℚ) := by
        push_cast
        linarith
      exact_mod_cast h' 
  · push_neg at he
    rw [decide_eq_true_iff]
    have hm : e = -((-e).toNat : Int) := by
      rw [Int.toNat_of_nonneg (by omega)]
      ring
    rw [show (2 : ℚ) ^ e = ((2 : ℚ) ^ (-e).toNat)⁻¹ by
      rw [← zpow_natCast, ← zpow_neg, ← hm]]
    rw [inv_eq_one_div, div_le_div_iff₀ (by positivity) hbq, one_mul]
    constructor
    · intro h
      have h' : (b : ℚ) ≤ ((a * 2 ^ (-e).toNat : ℕ) : ℚ) := by exact_mod_cast h
      push_cast at h'
      linarith
    · intro h
      have h' : ((b : ℕ) : ℚ) ≤ ((a * 2 ^ (-e).toNat : ℕ) : ℚ) := by
        push_cast
        linarith
      exact_mod_cast h' 

/-- `binExp` really is the binary exponent:
`2 ^ binExp a b ≤ a / b < 2 ^ (binExp a b + 1)` (for positive inputs below
the `bitLen` fuel bound). -/
theorem binExp_spec (a b : Nat) (h0a : 0 < a) (h0b : 0 < b)
    (ha : a < 2 ^ 128) (hb : b < 2 ^ 128) :
    (2 : ℚ) ^ binExp a b ≤ (a : ℚ) / b ∧ (a : ℚ) / b < (2 : ℚ) ^ (binExp a b + 1) := by
  obtain ⟨hA0, hA1, hA2⟩ := bitLen_spec a h0a ha
  obtain ⟨hB0, hB1, hB2⟩ := bitLen_spec b h0b hb
  have hbq : (0 : ℚ) < b := by exact_mod_cast h0b
  have haq : (0 : ℚ) < a := by exact_mod_cast h0a
  have qa_lo : (2 : ℚ) ^ ((bitLen a : ℤ) - 1) ≤ a := by
    rw [show (bitLen a : ℤ) - 1 = ((bitLen a - 1 : ℕ) : ℤ) by omega, zpow_natCast]
    exact_mod_cast hA1
  have qa_hi : (a : ℚ) < 2 ^ ((bitLen a : ℤ)) := by
    rw [zpow_natCast]
    exact_mod_cast hA2
  have qb_lo : (2 : ℚ) ^ ((bitLen b : ℤ) - 1) ≤ b := by
    rw [show (bitLen b : ℤ) - 1 = ((bitLen b - 1 : ℕ) : ℤ) by omega, zpow_natCast]
    exact_mod_cast hB1
  have qb_hi : (b : ℚ) < 2 ^ ((bitLen b : ℤ)) := by
    rw [zpow_natCast]
    exact_mod_cast hB2
  have hU : (a : ℚ) / b < 2 ^ ((bitLen a : ℤ) - (bitLen b : ℤ) + 1) := by
    rw [div_lt_iff₀ hbq]
    calc (a : ℚ) < 2 ^ ((bitLen a : ℤ)) := qa_hi
      _ = 2 ^ ((bitLen a : ℤ) - (bitLen b : ℤ) + 1) * 2 ^ ((bitLen b : ℤ) - 1) := by
          rw [← zpow_add₀ (by norm_num : (2 : ℚ) ≠ 0)]
          congr 1
          ring
      _ ≤ 2 ^ ((bitLen a : ℤ) - (bitLen b : ℤ) + 1) * b := by
          exact mul_le_mul_of_nonneg_left qb_lo (by positivity)
  have hL : (2 : ℚ) ^ ((bitLen a : ℤ) - (bitLen b : ℤ) - 1) ≤ (a : ℚ) / b := by
    rw [le_div_iff₀ hbq]
    calc (2 : ℚ) ^ ((bitLen a : ℤ) - (bitLen b : ℤ) - 1) * b
        ≤ 2 ^ ((bitLen a : ℤ) - (bitLen b : ℤ) - 1) * 2 ^ ((bitLen b : ℤ)) := by
          exact mul_le_mul_of_nonneg_left qb_hi.le (by positivity)
      _ = 2 ^ ((bitLen a : ℤ) - 1) := by
          rw [← zpow_add₀ (by norm_num : (2 : ℚ) ≠ 0)]
          congr 1
          ring
      _ ≤ a := qa_lo
  rw [binExp, forceZ_eq]
  by_cases hq : qGePow2 a b ((bitLen a : ℤ) - (bitLen b : ℤ)) = true
  · rw [if_pos hq]
    exact ⟨(qGePow2_iff a b h0b _).mp hq, hU⟩
  · rw [if_neg hq]
    refine ⟨hL, ?_⟩
    have := (not_iff_not.mpr (qGePow2_iff a b h0b ((bitLen a : ℤ) - (bitLen b : ℤ)))).mp hq
    push_neg at this
    calc (a : ℚ) / b < 2 ^ ((bitLen a : ℤ) - (bitLen b : ℤ)) := this
      _ = 2 ^ ((bitLen a : ℤ) - (bitLen b : ℤ) - 1 + 1) := by congr 1; ring

/-- Lower bound transfer: any power of two below `a / b` bounds `binExp`
from below. -/
theorem binExp_ge (a b : Nat) (h0a : 0 < a) (h0b : 0 < b)
    (ha : a < 2 ^ 128) (hb : b < 2 ^ 128) (V : Int)
    (h : (2 : ℚ) ^ V ≤ (a : ℚ) / b) : V ≤ binExp a b := by
  have hs := (binExp_spec a b h0a h0b ha hb).2
  have : (2 : ℚ) ^ V < 2 ^ (binExp a b + 1) := lt_of_le_of_lt h hs
  have := (zpow_lt_zpow_iff_right₀ (by norm_num : (1 : ℚ) < 2)).mp this
  omega

/-- Upper bound transfer: any power of two above `a / b` bounds `binExp`
from above. -/
theorem binExp_le (a b : Nat) (h0a : 0 < a) (h0b : 0 < b)
    (ha : a < 2 ^ 128) (hb : b < 2 ^ 128) (U : Int)
    (h : (a : ℚ) / b < (2 : ℚ) ^ (U + 1)) : binExp a b ≤ U := by
  have hs := (binExp_spec a b h0a h0b ha hb).1
  have : (2 : ℚ) ^ binExp a b < 2 ^ (U + 1) := lt_of_le_of_lt hs h
  have := (zpow_lt_zpow_iff_right₀ (by norm_num : (1 : ℚ) < 2)).mp this
  omega

/-- Core correctness of binary32 rounding of a positive fraction whose
value lies in `[1, 2^24)`: the relative error is at most `2^-24`, the
result is a positive fraction, its denominator is a power of two at most
`2^23`, and its numerator is at most `2^24`. -/
theorem roundPos_spec (a b : Nat) (h0a : 0 < a) (h0b : 0 < b)
    (ha : a < 2 ^ 128) (hb : b < 2 ^ 128)
    (hlo : 1 ≤ (a : ℚ) / b) (hhi : (a : ℚ) / b < 2 ^ 24) :
    (a : ℚ) / b - ((a : ℚ) / b) / 2 ^ 24 ≤ (roundPos a b).val ∧
    (roundPos a b).val ≤ (a : ℚ) / b + ((a : ℚ) / b) / 2 ^ 24 ∧
    0 < (roundPos a b).num ∧ 0 < (roundPos a b).den ∧
    (roundPos a b).den ≤ 2 ^ 23 ∧ (roundPos a b).num.toNat ≤ 2 ^ 24 := by
  have hbq : (0 : ℚ) < b := by exact_mod_cast h0b
  set v : ℚ := (a : ℚ) / b with hv
  have hvpos : 0 < v := lt_of_lt_of_le one_pos hlo
  have hk := binExp_spec a b h0a h0b ha hb
  have hk0 : 0 ≤ binExp a b := by
    refine binExp_ge a b h0a h0b ha hb 0 ?_
    simpa using hlo
  have hk23 : binExp a b ≤ 23 := by
    refine binExp_le a b h0a h0b ha hb 23 ?_
    rw [show ((23 : ℤ) + 1) = ((24 : ℕ) : ℤ) by norm_num, zpow_natCast]
    exact hhi
  have hkK : ((binExp a b).toNat : ℤ) = binExp a b := Int.toNat_of_nonneg hk0
  set K : ℕ := (binExp a b).toNat with hKdef
  have hKle : K ≤ 23 := by omega
  have h5 : (2 : ℚ) ^ K ≤ v := by
    rw [← zpow_natCast (2 : ℚ) K, hkK]
    exact hk.1
  have h6 : v < (2 : ℚ) ^ (K + 1) := by
    rw [← zpow_natCast (2 : ℚ) (K + 1)]
    rw [show ((K + 1 : ℕ) : ℤ) = binExp a b + 1 by omega]
    exact hk.2
  by_cases he : 0 ≤ binExp a b - 23
  · -- here binExp a b = 23 and the scaling exponent is 0
    have hKeq : K = 23 := by omega
    have hbranch : roundPos a b = ⟨(rneDiv a b : Int), 1⟩ := by
      rw [roundPos, forceZ_eq, if_pos he,
        show (binExp a b - 23).toNat = 0 by omega]
      norm_num
    have hclose := rneDiv_close a b h0b
    have hval : (roundPos a b).val = (rneDiv a b : ℚ) := by
      rw [hbranch, Frac.val]
      norm_num
    have hquarter : (2 : ℚ) ^ 23 / 2 ^ 24 ≤ v / 2 ^ 24 := by
      apply div_le_div_of_nonneg_right ?_ (by norm_num)
      · rw [← hKeq]
        exact h5
    have hhalf : (2 : ℚ) ^ 23 / 2 ^ 24 = 1 / 2 := by norm_num
    have hnumpos : 0 < rneDiv a b := by
      have : (0 : ℚ) < (rneDiv a b : ℚ) := by linarith
      exact_mod_cast this
    have hnumle : rneDiv a b ≤ 2 ^ 24 := by
      have : (rneDiv a b : ℚ) < ((2 ^ 24 + 1 : ℕ) : ℚ) := by push_cast; linarith
      have := Nat.cast_lt.mp this
      omega
    refine ⟨?_, ?_, ?_, ?_, ?_, ?_⟩
    · rw [hval]; linarith
    · rw [hval]; linarith
    · rw [hbranch]
      show (0 : ℤ) < ((rneDiv a b : ℕ) : ℤ)
      exact_mod_cast hnumpos
    · rw [hbranch]
      norm_num
    · rw [hbranch]
      norm_num
    · rw [hbranch]
      simpa using hnumle
  · -- here binExp a b < 23 and the fraction is scaled up by 2 ^ M
    set M : ℕ := (-(binExp a b - 23)).toNat with hMdef
    have hKM : K + M = 23 := by omega
    have hbranch : roundPos a b = ⟨(rneDiv (a * 2 ^ M) b : Int), 2 ^ M⟩ := by
      rw [roundPos, forceZ_eq, if_neg he]
    have hPpos : (0 : ℚ) < (2 : ℚ) ^ M := by positivity
    have hclose := rneDiv_close (a * 2 ^ M) b h0b
    have hscaled : ((a * 2 ^ M : ℕ) : ℚ) / b = v * 2 ^ M := by
      push_cast
      rw [hv]
      ring
    rw [hscaled] at hclose
    have hval : (roundPos a b).val = (rneDiv (a * 2 ^ M) b : ℚ) / 2 ^ M := by
      rw [hbranch, Frac.val]
      push_cast
      norm_num
    have hKP : (2 : ℚ) ^ K * 2 ^ M = 2 ^ 23 := by
      rw [← pow_add, hKM]
    have hK1P : (2 : ℚ) ^ (K + 1) * 2 ^ M = 2 ^ 24 := by
      rw [← pow_add, show K + 1 + M = 24 by omega]
    have hhalfeq : (1 : ℚ) / 2 / 2 ^ M = 2 ^ K / 2 ^ 24 := by
      rw [div_div, div_eq_div_iff (by positivity) (by norm_num)]
      calc (1 : ℚ) * 2 ^ 24 = 2 * ((2 : ℚ) ^ K * 2 ^ M) := by rw [hKP]; norm_num
        _ = 2 ^ K * (2 * 2 ^ M) := by ring
    have hKv : (2 : ℚ) ^ K / 2 ^ 24 ≤ v / 2 ^ 24 :=
      div_le_div_of_nonneg_right h5 (by norm_num)
    have hup : (rneDiv (a * 2 ^ M) b : ℚ) / 2 ^ M ≤ v + 2 ^ K / 2 ^ 24 := by
      rw [div_le_iff₀ hPpos]
      have : (v + 2 ^ K / 2 ^ 24) * 2 ^ M = v * 2 ^ M + 1 / 2 := by
        rw [add_mul, ← hhalfeq]
        field_simp
        ring
      rw [this]
      linarith [hclose.2]
    have hdown : v - 2 ^ K / 2 ^ 24 ≤ (rneDiv (a * 2 ^ M) b : ℚ) / 2 ^ M := by
      rw [le_div_iff₀ hPpos]
      have : (v - 2 ^ K / 2 ^ 24) * 2 ^ M = v * 2 ^ M - 1 / 2 := by
        rw [sub_mul, ← hhalfeq]
        field_simp
        ring
      rw [this]
      linarith [hclose.1]
    have hnumpos : 0 < rneDiv (a * 2 ^ M) b := by
      have h1P : (1 : ℚ) ≤ 2 ^ M := one_le_pow₀ (by norm_num)
      have : (0 : ℚ) < (rneDiv (a * 2 ^ M) b : ℚ) := by
        have hv2 : (1 : ℚ) * 1 ≤ v * 2 ^ M := mul_le_mul hlo h1P (by norm_num) (le_of_lt hvpos)
        linarith [hclose.1]
      exact_mod_cast this
    have hnumle : rneDiv (a * 2 ^ M) b ≤ 2 ^ 24 := by
      have hvP : v * 2 ^ M < 2 ^ 24 := by
        calc v * 2 ^ M < 2 ^ (K + 1) * 2 ^ M := by
              exact mul_lt_mul_of_pos_right h6 hPpos
          _ = 2 ^ 24 := hK1P
      have : (rneDiv (a * 2 ^ M) b : ℚ) < ((2 ^ 24 + 1 : ℕ) : ℚ) := by
        push_cast
        linarith [hclose.2]
      have := Nat.cast_lt.mp this
      omega
    refine ⟨?_, ?_, ?_, ?_, ?_, ?_⟩
    · rw [hval]; linarith
    · rw [hval]; linarith
    · rw [hbranch]
      show (0 : ℤ) < ((rneDiv (a * 2 ^ M) b : ℕ) : ℤ)
      exact_mod_cast hnumpos
    · rw [hbranch]
      positivity
    · rw [hbranch]
      exact pow_le_pow_right₀ (by norm_num) (by omega)
    · rw [hbranch]
      simpa using hnumle

/-- `roundF` on a positive fraction with value in `[1, 2^24)`: relative
error at most `2^-24`, positive output, denominator at most `2^23`,
numerator at most `2^24`. -/
theorem roundF_spec (q : Frac) (hnum : 0 < q.num) (hden : 0 < q.den)
    (hn : q.num.toNat < 2 ^ 128) (hd : q.den < 2 ^ 128)
    (hlo : 1 ≤ q.val) (hhi : q.val < 2 ^ 24) :
    q.val - q.val / 2 ^ 24 ≤ (roundF q).val ∧
    (roundF q).val ≤ q.val + q.val / 2 ^ 24 ∧
    0 < (roundF q).num ∧ 0 < (roundF q).den ∧
    (roundF q).den ≤ 2 ^ 23 ∧ (roundF q).num.toNat ≤ 2 ^ 24 := by
  have hre : roundF q = roundPos q.num.toNat q.den := by
    rw [roundF, forceF_eq, if_pos hnum]
  have hvq : (q.num.toNat : ℚ) / q.den = q.val := by
    rw [Frac.val]
    congr 1
    exact_mod_cast Int.toNat_of_nonneg hnum.le
  have h0a : 0 < q.num.toNat := by omega
  have hmain := roundPos_spec q.num.toNat q.den h0a hden hn hd
    (by rw [hvq]; exact hlo) (by rw [hvq]; exact hhi)
  rw [hvq] at hmain
  rw [hre]
  exact hmain

/-- Truncation toward zero of a nonnegative fraction is its floor. -/
theorem truncF_floor (q : Frac) (h0 : 0 ≤ q.num) (hd : 0 < q.den) :
    ((truncF q : ℤ) : ℚ) ≤ q.val ∧ q.val < ((truncF q : ℤ) : ℚ) + 1 := by
  have hdz : ((q.den : ℤ)) ≠ 0 := by exact_mod_cast hd.ne'
  have hdq : (0 : ℚ) < ((q.den : ℕ) : ℚ) := by exact_mod_cast hd
  have ht : truncF q = q.num / (q.den : ℤ) := by
    rw [truncF, forceF_eq]
    exact Int.tdiv_eq_ediv h0 (by positivity)
  have hmod := Int.ediv_add_emod q.num (q.den : ℤ)
  have hr0 : 0 ≤ q.num % (q.den : ℤ) := Int.emod_nonneg _ hdz
  have hr1 : q.num % (q.den : ℤ) < (q.den : ℤ) := Int.emod_lt_of_pos _ (by exact_mod_cast hd)
  have hnq : (q.num : ℚ) = (q.den : ℚ) * ((q.num / (q.den : ℤ) : ℤ) : ℚ)
      + ((q.num % (q.den : ℤ) : ℤ) : ℚ) := by exact_mod_cast hmod.symm
  have hval : q.val = ((q.num / (q.den : ℤ) : ℤ) : ℚ)
      + ((q.num % (q.den : ℤ) : ℤ) : ℚ) / q.den := by
    rw [Frac.val, hnq, add_div, mul_comm, mul_div_assoc, div_self (ne_of_gt hdq), mul_one]
  have hc0 : (0 : ℚ) ≤ ((q.num % (q.den : ℤ) : ℤ) : ℚ) / q.den :=
    div_nonneg (by exact_mod_cast hr0) hdq.le
  have hc1 : ((q.num % (q.den : ℤ) : ℤ) : ℚ) / q.den < 1 := by
    rw [div_lt_iff₀ hdq, one_mul]
    exact_mod_cast hr1
  rw [ht]
  exact ⟨by rw [hval]; linarith, by rw [hval]; linarith⟩

/-- `Frac.div` with a nonnegative divisor numerator, componentwise. -/
theorem Frac.div_eq (q r : Frac) (h : 0 ≤ r.num) :
    q.div r = ⟨q.num * r.den, q.den * r.num.toNat⟩ := by
  rw [Frac.div, forceF_eq, forceF_eq, if_pos h]

/-- `Frac.mul`, componentwise. -/
theorem Frac.mul_eq (q r : Frac) : q.mul r = ⟨q.num * r.num, q.den * r.den⟩ := by
  rw [Frac.mul, forceF_eq, forceF_eq]

/-- The value of an exact quotient is the quotient of the values. -/
theorem Frac.div_val (q r : Frac) (hq : 0 < q.den) (hr : 0 < r.den) (hrn : 0 < r.num) :
    (q.div r).val = q.val / r.val := by
  rw [Frac.div_eq q r hrn.le, Frac.val, Frac.val, Frac.val]
  have h1 : ((r.num.toNat : ℕ) : ℚ) = (r.num : ℚ) := by
    exact_mod_cast Int.toNat_of_nonneg hrn.le
  show ((q.num * r.den : ℤ) : ℚ) / ((q.den * r.num.toNat : ℕ) : ℚ) = _
  push_cast [h1]
  have hdq : ((q.den : ℕ) : ℚ) ≠ 0 := by exact_mod_cast hq.ne'
  have hrq : ((r.num : ℤ) : ℚ) ≠ 0 := by exact_mod_cast hrn.ne'
  have hrd : ((r.den : ℕ) : ℚ) ≠ 0 := by exact_mod_cast hr.ne'
  field_simp

/-- The value of an exact product is the product of the values. -/
theorem Frac.mul_val (q r : Frac) :
    (q.mul r).val = q.val * r.val := by
  rw [Frac.mul_eq, Frac.val, Frac.val, Frac.val]
  show ((q.num * r.num : ℤ) : ℚ) / ((q.den * r.den : ℕ) : ℚ) = _
  push_cast
  rw [div_mul_div_comm]

set_option maxHeartbeats 1000000 in
/-- Round-trip core: for any timer configuration whose rounded tick-length
constant `cF` has value `c ∈ [1/40, 625/2048]` (true for all widths
16–20), and any integer pulse width `us ∈ [500, 2500]`, the float pipeline
`ticksToUs ∘ usToTicks` loses at most one microsecond and never gains:
`us - 1 ≤ roundtrip ≤ us`. -/
theorem roundtrip_core (twt : Int) (cF : Frac) (c : ℚ)
    (hc : floatDiv (floatOfInt REFRESH_USEC) (floatOfInt twt) = cF)
    (hcval : cF.val = c)
    (hcnum : 0 < cF.num) (hcden : 0 < cF.den)
    (hcnum_le : cF.num.toNat ≤ 2 ^ 24) (hcden_le : cF.den ≤ 2 ^ 29)
    (hc_lo : 625 / 32768 ≤ c) (hc_hi : c ≤ 625 / 2048)
    (us : Int) (h3 : 500 ≤ us) (h4 : us ≤ 2500) :
    us - 1 ≤ ticksToUsF twt (usToTicksF twt us) ∧
    ticksToUsF twt (usToTicksF twt us) ≤ us := by
  have husq : (500 : ℚ) ≤ (us : ℚ) := by exact_mod_cast h3
  have husq' : (us : ℚ) ≤ 2500 := by exact_mod_cast h4
  have hcpos : (0 : ℚ) < c := lt_of_lt_of_le (by norm_num) hc_lo
  have hcne : c ≠ 0 := hcpos.ne'
  -- stage 1: us as a float
  obtain ⟨x1, hx1def⟩ : ∃ q : Frac, q = roundF ⟨us, 1⟩ := ⟨_, rfl⟩
  have hx1float : floatOfInt us = x1 := by rw [floatOfInt, hx1def]
  have hx1pre : (⟨us, 1⟩ : Frac).val = (us : ℚ) := by rw [Frac.val]; norm_num
  have hx1 := roundF_spec ⟨us, 1⟩ (by show 0 < us; omega) (by norm_num)
    (by show us.toNat < 2 ^ 128; omega) (by norm_num)
    (by rw [hx1pre]; linarith) (by rw [hx1pre]; norm_num; linarith)
  rw [hx1pre, ← hx1def] at hx1
  obtain ⟨hx1lo, hx1hi, hx1num, hx1den, hx1den_le, hx1num_le⟩ := hx1
  have huse : (us : ℚ) / 2 ^ 24 ≤ 1 := by
    rw [div_le_one (by norm_num)]
    linarith
  have hx1lo' : (499 : ℚ) ≤ x1.val := by linarith
  have hx1hi' : x1.val ≤ 2501 := by linarith
  -- stage 2: exact quotient and its rounding
  obtain ⟨d1, hd1def⟩ : ∃ q : Frac, q = x1.div cF := ⟨_, rfl⟩
  have hd1eq : d1 = ⟨x1.num * cF.den, x1.den * cF.num.toNat⟩ := by
    rw [hd1def]
    exact Frac.div_eq x1 cF hcnum.le
  have hd1num : 0 < d1.num := by
    rw [hd1eq]
    exact mul_pos hx1num (by exact_mod_cast hcden)
  have hd1den : 0 < d1.den := by
    rw [hd1eq]
    exact Nat.mul_pos hx1den (by omega)
  have hd1num_le : d1.num ≤ 2 ^ 53 := by
    rw [hd1eq]
    show x1.num * (cF.den : ℤ) ≤ 2 ^ 53
    calc x1.num * (cF.den : ℤ) ≤ 2 ^ 24 * 2 ^ 29 := by
          apply mul_le_mul (by omega) (by exact_mod_cast hcden_le)
            (by positivity) (by norm_num)
      _ = 2 ^ 53 := by norm_num
  have hd1den_le : d1.den ≤ 2 ^ 47 := by
    rw [hd1eq]
    show x1.den * cF.num.toNat ≤ 2 ^ 47
    calc x1.den * cF.num.toNat ≤ 2 ^ 23 * 2 ^ 24 :=
          Nat.mul_le_mul hx1den_le hcnum_le
      _ = 2 ^ 47 := by norm_num
  have hd1val : d1.val = x1.val / c := by
    rw [hd1def, Frac.div_val x1 cF hx1den hcden hcnum, hcval]
  have hd1lo : (1634 : ℚ) ≤ d1.val := by
    rw [hd1val, le_div_iff₀ hcpos]
    linarith
  have hd1hi : d1.val ≤ 131200 := by
    rw [hd1val, div_le_iff₀ hcpos]
    linarith
  obtain ⟨y, hydef⟩ : ∃ q : Frac, q = roundF d1 := ⟨_, rfl⟩
  have hy := roundF_spec d1 hd1num hd1den (by omega) (by omega)
    (by linarith) (by norm_num; linarith)
  rw [← hydef] at hy
  obtain ⟨hylo, hyhi, hynum, hyden, hyden_le, hynum_le⟩ := hy
  have hd1e : d1.val / 2 ^ 24 ≤ 1 := by
    rw [div_le_one (by norm_num)]
    linarith
  have hyval_lo : (1600 : ℚ) ≤ y.val := by linarith
  have hyval_hi : y.val ≤ 131201 := by linarith
  -- the stored tick count
  obtain ⟨t, htdef⟩ : ∃ n : Int, n = truncF y := ⟨_, rfl⟩
  have ht := truncF_floor y hynum.le hyden
  rw [← htdef] at ht
  have htlo : (1599 : ℚ) ≤ ((t : ℤ) : ℚ) := by linarith [ht.1, ht.2]
  have hthi : ((t : ℤ) : ℚ) ≤ 131201 := by linarith [ht.1]
  have htpos : 0 < t := by
    have : ((0 : ℤ) : ℚ) < ((t : ℤ) : ℚ) := by push_cast; linarith
    exact_mod_cast this
  have htlt : t < 2 ^ 24 := by
    have : ((t : ℤ) : ℚ) < ((2 ^ 24 : ℤ) : ℚ) := by push_cast; linarith
    exact_mod_cast this
  -- stage 3: the tick count as a float
  obtain ⟨x2, hx2def⟩ : ∃ q : Frac, q = roundF ⟨t, 1⟩ := ⟨_, rfl⟩
  have hx2float : floatOfInt t = x2 := by rw [floatOfInt, hx2def]
  have hx2pre : (⟨t, 1⟩ : Frac).val = ((t : ℤ) : ℚ) := by rw [Frac.val]; norm_num
  have hx2 := roundF_spec ⟨t, 1⟩ (by show 0 < t; omega) (by norm_num)
    (by show t.toNat < 2 ^ 128; omega) (by norm_num)
    (by rw [hx2pre]; linarith) (by rw [hx2pre]; norm_num; linarith)
  rw [hx2pre, ← hx2def] at hx2
  obtain ⟨hx2lo, hx2hi, hx2num, hx2den, hx2den_le, hx2num_le⟩ := hx2
  have hte : ((t : ℤ) : ℚ) / 2 ^ 24 ≤ 1 := by
    rw [div_le_one (by norm_num)]
    linarith
  have hx2lo' : (1598 : ℚ) ≤ x2.val := by linarith
  have hx2hi' : x2.val ≤ 131202 := by linarith
  -- stage 4: exact product and its rounding
  obtain ⟨m2, hm2def⟩ : ∃ q : Frac, q = x2.mul cF := ⟨_, rfl⟩
  have hm2eq : m2 = ⟨x2.num * cF.num, x2.den * cF.den⟩ := by
    rw [hm2def]
    exact Frac.mul_eq x2 cF
  have hm2num : 0 < m2.num := by
    rw [hm2eq]
    exact mul_pos hx2num hcnum
  have hm2den : 0 < m2.den := by
    rw [hm2eq]
    exact Nat.mul_pos hx2den hcden
  have hm2num_le : m2.num ≤ 2 ^ 48 := by
    rw [hm2eq]
    show x2.num * cF.num ≤ 2 ^ 48
    calc x2.num * cF.num ≤ 2 ^ 24 * 2 ^ 24 := by
          apply mul_le_mul (by omega) (by omega) hcnum.le (by norm_num)
      _ = 2 ^ 48 := by norm_num
  have hm2den_le : m2.den ≤ 2 ^ 52 := by
    rw [hm2eq]
    show x2.den * cF.den ≤ 2 ^ 52
    calc x2.den * cF.den ≤ 2 ^ 23 * 2 ^ 29 :=
          Nat.mul_le_mul hx2den_le hcden_le
      _ = 2 ^ 52 := by norm_num
  have hm2val : m2.val = x2.val * c := by
    rw [hm2def, Frac.mul_val, hcval]
  -- bounds for the product t * c
  have hdc : d1.val * c = x1.val := by
    rw [hd1val]
    exact div_mul_cancel₀ x1.val hcne
  have step1 : ((t : ℤ) : ℚ) ≤ d1.val + d1.val / 2 ^ 24 := by linarith [ht.1]
  have step2 : ((t : ℤ) : ℚ) * c ≤ (d1.val + d1.val / 2 ^ 24) * c :=
    mul_le_mul_of_nonneg_right step1 hcpos.le
  have step3 : (d1.val + d1.val / 2 ^ 24) * c = d1.val * c + d1.val * c / 2 ^ 24 := by
    ring
  have step4 : ((t : ℤ) : ℚ) * c ≤ x1.val + x1.val / 2 ^ 24 := by
    rw [step3, hdc] at step2
    exact step2
  have htc_hi : ((t : ℤ) : ℚ) * c ≤ (us : ℚ) + 3 * (us : ℚ) / 2 ^ 24 := by
    linarith
  have step1l : d1.val - d1.val / 2 ^ 24 - 1 ≤ ((t : ℤ) : ℚ) := by linarith [ht.2]
  have step2l : (d1.val - d1.val / 2 ^ 24 - 1) * c ≤ ((t : ℤ) : ℚ) * c :=
    mul_le_mul_of_nonneg_right step1l hcpos.le
  have step3l : (d1.val - d1.val / 2 ^ 24 - 1) * c
      = d1.val * c - d1.val * c / 2 ^ 24 - c := by ring
  have step4l : x1.val - x1.val / 2 ^ 24 - c ≤ ((t : ℤ) : ℚ) * c := by
    rw [step3l, hdc] at step2l
    exact step2l
  have htc_lo : (us : ℚ) - 3 * (us : ℚ) / 2 ^ 24 - c ≤ ((t : ℤ) : ℚ) * c := by
    linarith
  -- the exact product stays within [1, 2 ^ 24)
  have hx2c_up : x2.val * c ≤ ((t : ℤ) : ℚ) * c + ((t : ℤ) : ℚ) * c / 2 ^ 24 := by
    have h := mul_le_mul_of_nonneg_right hx2hi hcpos.le
    have hexp : (((t : ℤ) : ℚ) + ((t : ℤ) : ℚ) / 2 ^ 24) * c
        = ((t : ℤ) : ℚ) * c + ((t : ℤ) : ℚ) * c / 2 ^ 24 := by ring
    rw [hexp] at h
    exact h
  have hx2c_lo : ((t : ℤ) : ℚ) * c - ((t : ℤ) : ℚ) * c / 2 ^ 24 ≤ x2.val * c := by
    have h := mul_le_mul_of_nonneg_right hx2lo hcpos.le
    have hexp : (((t : ℤ) : ℚ) - ((t : ℤ) : ℚ) / 2 ^ 24) * c
        = ((t : ℤ) : ℚ) * c - ((t : ℤ) : ℚ) * c / 2 ^ 24 := by ring
    rw [hexp] at h
    exact h
  have htc_le : ((t : ℤ) : ℚ) * c ≤ 2501 := by linarith
  have hm2lo : (1 : ℚ) ≤ m2.val := by
    rw [hm2val]
    have h := mul_le_mul hx2lo' hc_lo (by norm_num) (by linarith : (0 : ℚ) ≤ x2.val)
    linarith
  have hm2hi : m2.val < 2 ^ 24 := by
    rw [hm2val]
    linarith
  obtain ⟨z, hzdef⟩ : ∃ q : Frac, q = roundF m2 := ⟨_, rfl⟩
  have hz := roundF_spec m2 hm2num hm2den (by omega) (by omega) hm2lo hm2hi
  rw [← hzdef] at hz
  obtain ⟨hzlo, hzhi, hznum, hzden, hzden_le, hznum_le⟩ := hz
  obtain ⟨rt, hrtdef⟩ : ∃ n : Int, n = truncF z := ⟨_, rfl⟩
  have hrt := truncF_floor z hznum.le hzden
  rw [← hrtdef] at hrt
  -- identify the pipeline stages with the model's conversions
  have hts : usToTicksF twt us = t := by
    show truncF (floatDiv (floatOfInt us)
      (floatDiv (floatOfInt REFRESH_USEC) (floatOfInt twt))) = t
    rw [hc]
    show truncF (roundF ((floatOfInt us).div cF)) = t
    rw [hx1float, ← hd1def, ← hydef]
    exact htdef.symm
  have hrts : ticksToUsF twt t = rt := by
    show truncF (floatMul (floatOfInt t)
      (floatDiv (floatOfInt REFRESH_USEC) (floatOfInt twt))) = rt
    rw [hc]
    show truncF (roundF ((floatOfInt t).mul cF)) = rt
    rw [hx2float, ← hm2def, ← hzdef]
    exact hrtdef.symm
  -- final assembly
  have hm2v_hi : m2.val ≤ (us : ℚ) + 4 * (us : ℚ) / 2 ^ 24 + 1 / 2 ^ 24 := by
    rw [hm2val]
    linarith
  have hm2v_lo : (us : ℚ) - 4 * (us : ℚ) / 2 ^ 24 - c - 1 / 2 ^ 24 ≤ m2.val := by
    rw [hm2val]
    linarith
  have hzv_hi : z.val < (us : ℚ) + 1 := by linarith
  have hzv_lo : (us : ℚ) - 2 < z.val := by
    have hcub : c ≤ 1 := by linarith
    linarith
  rw [hts, hrts]
  constructor
  · have hq : ((us : ℤ) : ℚ) - 2 < ((rt : ℤ) : ℚ) := by linarith [hrt.2]
    have : (us : ℤ) - 2 < rt := by exact_mod_cast hq
    omega
  · have hq : ((rt : ℤ) : ℚ) < ((us : ℤ) : ℚ) + 1 := by linarith [hrt.1]
    have : (rt : ℤ) < us + 1 := by exact_mod_cast hq
    omega

/-- C5 counterexample: at the default 16-bit width, the round trip of
1500 µs returns 1499 µs — an error of a full microsecond, which exceeds
the claimed bound of one tick's worth of microseconds
(`20000 / 2^16 ≈ 0.305 µs`). -/
theorem claim_C5_counterexample :
    ticksToUsF ((2 : Int) ^ 16) (usToTicksF ((2 : Int) ^ 16) 1500) = 1499 ∧
    ¬(|(1500 : ℚ) - (ticksToUsF ((2 : Int) ^ 16) (usToTicksF ((2 : Int) ^ 16) 1500) : ℚ)|
        ≤ 20000 / 2 ^ 16) := by
  have h : ticksToUsF ((2 : Int) ^ 16) (usToTicksF ((2 : Int) ^ 16) 1500) = 1499 := by
    decide
  refine ⟨h, ?_⟩
  rw [h]
  norm_num

/-- C5 (amended): for every timer width `w ∈ [16, 20]` and every pulse
width `us` in the valid device range `[500, 2500]`, the float round trip
`ticksToUs(usToTicks(us))` at `timer_width_ticks = 2^w` satisfies
`us - 1 ≤ roundtrip ≤ us`: the truncation error is bounded by one
microsecond (one integer truncation plus less than one tick), not by one
tick's worth of microseconds. -/
theorem claim_C5 : ∀ (w : Nat) (us : Int), 16 ≤ w → w ≤ 20 →
    MIN_PULSE_WIDTH ≤ us → us ≤ MAX_PULSE_WIDTH →
    us - 1 ≤ ticksToUsF ((2 : Int) ^ w) (usToTicksF ((2 : Int) ^ w) us) ∧
    ticksToUsF ((2 : Int) ^ w) (usToTicksF ((2 : Int) ^ w) us) ≤ us := by
  intro w us h1 h2 h3 h4
  simp only [MIN_PULSE_WIDTH] at h3
  simp only [MAX_PULSE_WIDTH] at h4
  interval_cases w
  · exact roundtrip_core _ ⟨10240000, 2 ^ 25⟩ (625 / 2048) (by decide)
      (by rw [Frac.val]; norm_num) (by norm_num) (by norm_num) (by norm_num)
      (by norm_num) (by norm_num) (by norm_num) us h3 h4
  · exact roundtrip_core _ ⟨10240000, 2 ^ 26⟩ (625 / 4096) (by decide)
      (by rw [Frac.val]; norm_num) (by norm_num) (by norm_num) (by norm_num)
      (by norm_num) (by norm_num) (by norm_num) us h3 h4
  · exact roundtrip_core _ ⟨10240000, 2 ^ 27⟩ (625 / 8192) (by decide)
      (by rw [Frac.val]; norm_num) (by norm_num) (by norm_num) (by norm_num)
      (by norm_num) (by norm_num) (by norm_num) us h3 h4
  · exact roundtrip_core _ ⟨10240000, 2 ^ 28⟩ (625 / 16384) (by decide)
      (by rw [Frac.val]; norm_num) (by norm_num) (by norm_num) (by norm_num)
      (by norm_num) (by norm_num) (by norm_num) us h3 h4
  · exact roundtrip_core _ ⟨10240000, 2 ^ 29⟩ (625 / 32768) (by decide)
      (by rw [Frac.val]; norm_num) (by norm_num) (by norm_num) (by norm_num)
      (by norm_num) (by norm_num) (by norm_num) us h3 h4

/-- Witness for C5 at `w = 16`, `us = 1500`: the round trip returns a value
in `[1499, 1500]`. -/
theorem claim_C5_witness :
    (1500 : Int) - 1 ≤ ticksToUsF ((2 : Int) ^ 16) (usToTicksF ((2 : Int) ^ 16) 1500) ∧
    ticksToUsF ((2 : Int) ^ 16) (usToTicksF ((2 : Int) ^ 16) 1500) ≤ 1500 :=
  claim_C5 16 1500 (by decide) (by decide) (by decide) (by decide)
